import Mathlib

/-!
Verification of the incremental session-tracking core of
`codex_pattern_updater.py`: trimming of processed-session identifiers
under a token budget, persisted-state handling, new/updated session
classification, timestamp normalization, dynamic-pattern discovery
bookkeeping, and pattern-match statistics.

Each definition is a shallow embedding of the corresponding Python
function; Python dicts are modelled as association lists or as
functions, machine integers as Nat/Int (Python integers are unbounded).
-/

namespace CodexUpdater

/-- Source constant MAX_MEMORY_TOKENS = 100_000. -/
def MAX_MEMORY_TOKENS : Nat := 100000

/-- Source constant MAX_PATTERNS = 20. -/
def MAX_PATTERNS : Nat := 20

/-- Embedding of `estimate_token_cost`:
`max(1, (len(session_id) // 4) + 1)`. -/
def estimate_token_cost (session_id : String) : Nat :=
  max 1 (session_id.length / 4 + 1)

/-- The reverse accumulation loop inside `enforce_state_limits`.  The
Python loop iterates over `reversed(processed_sessions)`, keeps a running
token total, appends an identifier to `limited` when it fits, and
`continue`s (skips) when `tokens + cost > MAX_MEMORY_TOKENS`.  `trimWalk`
is that loop applied to the already-reversed list. -/
def trimWalk : List String → Nat → List String
  | [], _ => []
  | sid :: rest, tokens =>
    let cost := estimate_token_cost sid
    if MAX_MEMORY_TOKENS < tokens + cost then
      trimWalk rest tokens
    else
      sid :: trimWalk rest (tokens + cost)

/-- Embedding of `enforce_state_limits`: walk the reversed list
accumulating cost, un-reverse the survivors, and report
`len(processed_sessions) - len(limited)` as the trimmed count. -/
def enforce_state_limits (processed_sessions : List String) :
    List String × Nat :=
  let limited := (trimWalk processed_sessions.reverse 0).reverse
  (limited, processed_sessions.length - limited.length)

/-- Sum of estimated token costs over a list of identifiers (used to
state the trimming budget bound). -/
def sumCost (l : List String) : Nat :=
  (l.map estimate_token_cost).sum

@[simp]
theorem sumCost_nil : sumCost [] = 0 := rfl

@[simp]
theorem sumCost_cons (sid : String) (l : List String) :
    sumCost (sid :: l) = estimate_token_cost sid + sumCost l := by
  simp [sumCost]

/-- First-occurrence-preserving deduplication loop from `save_state`
(`seen` set plus `ordered_unique` accumulator); `seen` is the set of
identifiers already emitted. -/
def dedupFirst (seen : List String) : List String → List String
  | [] => []
  | sid :: rest =>
    if sid ∈ seen then dedupFirst seen rest
    else sid :: dedupFirst (sid :: seen) rest

/-- Python-dict lookup in an association list (first binding wins; the
Python dicts involved never hold duplicate keys). -/
def alistLookup (k : String) : List (String × Int) → Option Int
  | [] => none
  | (k2, v) :: rest => if k2 = k then some v else alistLookup k rest

/-- The persisted automation state (the JSON object written by
`save_state`): `processed_sessions`, `session_progress`,
`trimmed_sessions`.  The `dynamic_patterns` and `updated_at` fields play
no role in the trimming claims and are omitted here. -/
structure AutoState where
  processed_sessions : List String
  session_progress : List (String × Int)
  trimmed_sessions : Nat
  deriving DecidableEq

/-- Embedding of the pure state transformation performed by
`save_state` (file writing and the `updated_at` timestamp aside): apply
`enforce_state_limits`, deduplicate the survivors preserving first
occurrences, restrict `session_progress` to surviving identifiers when
it is nonempty, and store the trimmed count. -/
def save_state (st : AutoState) : AutoState :=
  let r := enforce_state_limits st.processed_sessions
  let limited := r.1
  let trimmed := r.2
  let ordered_unique := dedupFirst [] limited
  let progress :=
    if st.session_progress = [] then st.session_progress
    else ordered_unique.filterMap fun sid =>
      (alistLookup sid st.session_progress).map fun v => (sid, v)
  { processed_sessions := ordered_unique
    session_progress := progress
    trimmed_sessions := trimmed }

/-! ### Lemmas about the trimming walk -/

theorem trimWalk_sum_le (l : List String) :
    ∀ tokens, tokens ≤ MAX_MEMORY_TOKENS →
      tokens + sumCost (trimWalk l tokens) ≤ MAX_MEMORY_TOKENS := by
  induction l with
  | nil =>
    intro tokens h
    simpa [trimWalk, sumCost] using h
  | cons sid rest ih =>
    intro tokens h
    by_cases hc : MAX_MEMORY_TOKENS < tokens + estimate_token_cost sid
    · simpa [trimWalk, hc] using ih tokens h
    · have h2 : tokens + estimate_token_cost sid ≤ MAX_MEMORY_TOKENS :=
        Nat.le_of_not_lt hc
      have := ih (tokens + estimate_token_cost sid) h2
      simp only [trimWalk, hc, if_false, sumCost_cons]
      omega

theorem trimWalk_of_sum_le (l : List String) :
    ∀ tokens, tokens + sumCost l ≤ MAX_MEMORY_TOKENS →
      trimWalk l tokens = l := by
  induction l with
  | nil => intro tokens _; rfl
  | cons sid rest ih =>
    intro tokens h
    rw [sumCost_cons] at h
    have hc : ¬ MAX_MEMORY_TOKENS < tokens + estimate_token_cost sid := by
      omega
    have hrest : (tokens + estimate_token_cost sid) + sumCost rest ≤
        MAX_MEMORY_TOKENS := by omega
    simp [trimWalk, hc, ih _ hrest]

theorem trimWalk_length_le (l : List String) :
    ∀ tokens, (trimWalk l tokens).length ≤ l.length := by
  induction l with
  | nil => intro tokens; simp [trimWalk]
  | cons sid rest ih =>
    intro tokens
    by_cases hc : MAX_MEMORY_TOKENS < tokens + estimate_token_cost sid
    · simp only [trimWalk, hc, if_true, List.length_cons]
      exact Nat.le_succ_of_le (ih tokens)
    · simp only [trimWalk, hc, if_false, List.length_cons]
      exact Nat.succ_le_succ (ih _)

theorem trimWalk_sublist (l : List String) :
    ∀ tokens, (trimWalk l tokens).Sublist l := by
  induction l with
  | nil => intro tokens; simp [trimWalk]
  | cons sid rest ih =>
    intro tokens
    by_cases hc : MAX_MEMORY_TOKENS < tokens + estimate_token_cost sid
    · simp only [trimWalk, hc, if_true]
      exact (ih tokens).cons sid
    · simp only [trimWalk, hc, if_false]
      exact (ih _).cons₂ sid

theorem sumCost_reverse (l : List String) : sumCost l.reverse = sumCost l := by
  simp [sumCost, List.sum_reverse]

/-- The survivors of `enforce_state_limits` always cost at most the
budget. -/
theorem enforce_sum_le (l : List String) :
    sumCost (enforce_state_limits l).1 ≤ MAX_MEMORY_TOKENS := by
  have h := trimWalk_sum_le l.reverse 0 (Nat.zero_le _)
  simpa [enforce_state_limits, sumCost_reverse] using h

theorem enforce_length_le (l : List String) :
    (enforce_state_limits l).1.length ≤ l.length := by
  have h := trimWalk_length_le l.reverse 0
  simpa [enforce_state_limits] using h

theorem dedupFirst_sublist (l : List String) :
    ∀ seen, (dedupFirst seen l).Sublist l := by
  induction l with
  | nil => intro seen; simp [dedupFirst]
  | cons sid rest ih =>
    intro seen
    by_cases hm : sid ∈ seen
    · simp only [dedupFirst, hm, if_true]
      exact (ih seen).cons sid
    · simp only [dedupFirst, hm, if_false]
      exact (ih _).cons₂ sid

theorem sumCost_sublist_le {l₁ l₂ : List String} (h : l₁.Sublist l₂) :
    sumCost l₁ ≤ sumCost l₂ := by
  induction h with
  | slnil => exact Nat.le_refl _
  | cons sid _ ih =>
    simp only [sumCost_cons]
    omega
  | cons₂ sid _ ih =>
    simp only [sumCost_cons]
    omega

theorem enforce_sublist (l : List String) :
    (enforce_state_limits l).1.Sublist l := by
  have h := (trimWalk_sublist l.reverse 0).reverse
  rw [List.reverse_reverse] at h
  simpa [enforce_state_limits] using h

theorem enforce_trimmed_plus_length (l : List String) :
    (enforce_state_limits l).2 + (enforce_state_limits l).1.length =
      l.length := by
  have h := enforce_length_le l
  simp only [enforce_state_limits] at h ⊢
  omega

theorem save_state_processed_eq (st : AutoState) :
    (save_state st).processed_sessions =
      dedupFirst [] (enforce_state_limits st.processed_sessions).1 := rfl

theorem save_state_trimmed_eq (st : AutoState) :
    (save_state st).trimmed_sessions =
      (enforce_state_limits st.processed_sessions).2 := rfl

/-! ### Claim theorems about trimming -/

/-- Claim C1 (corrected), amended statement: for every starting state,
the identifiers persisted by `save_state` have total estimated cost at
most `MAX_MEMORY_TOKENS`, and the reported trimmed count equals the
length of the input list minus the length of the surviving list as it
stands before deduplication (stated additively to avoid truncated
subtraction). -/
theorem save_state_budget_and_trimmed_count (st : AutoState) :
    sumCost (save_state st).processed_sessions ≤ MAX_MEMORY_TOKENS ∧
    (save_state st).trimmed_sessions +
        (enforce_state_limits st.processed_sessions).1.length =
      st.processed_sessions.length := by
  constructor
  · rw [save_state_processed_eq]
    exact le_trans (sumCost_sublist_le (dedupFirst_sublist _ _))
      (enforce_sum_le _)
  · rw [save_state_trimmed_eq]
    exact enforce_trimmed_plus_length _

/-- Claim C1, counterexample to the original statement: on the state
whose processed list is the duplicate-containing `["a", "a"]`,
`save_state` persists the deduplicated list `["a"]` with trimmed count
0, while the claimed equation demands `len(input) - len(output) = 1`
after deduplication. -/
theorem save_state_trimmed_count_counterexample :
    (save_state ⟨["a", "a"], [], 0⟩).processed_sessions = ["a"] ∧
    (save_state ⟨["a", "a"], [], 0⟩).trimmed_sessions = 0 ∧
    ¬ ((save_state ⟨["a", "a"], [], 0⟩).trimmed_sessions =
        (["a", "a"] : List String).length -
          (save_state ⟨["a", "a"], [], 0⟩).processed_sessions.length) := by
  decide

/-- Session identifier of length 400000, with estimated token cost
100001, exceeding the whole budget by itself. -/
def bigId : String := String.mk (List.replicate 400000 'a')

theorem bigId_length : bigId.length = 400000 :=
  List.length_replicate 400000 'a'

theorem bigId_cost : estimate_token_cost bigId = 100001 := by
  show max 1 (bigId.length / 4 + 1) = 100001
  rw [bigId_length]
  decide

/-- Claim C2, counterexample to the original statement: in the input
`["aaaaaaaa", bigId, "bb"]` the reverse walk accepts `"bb"`, finds that
adding `bigId` would exceed the budget, yet the *older* identifier
`"aaaaaaaa"` still survives: the loop skips the over-budget identifier
and continues instead of dropping everything older.  The claim predicts
the output `(["bb"], 2)`, but the code returns `(["aaaaaaaa", "bb"], 1)`. -/
theorem enforce_skip_counterexample :
    enforce_state_limits ["aaaaaaaa", bigId, "bb"] =
      (["aaaaaaaa", "bb"], 1) := by
  have h1 : estimate_token_cost "bb" = 1 := by decide
  have h2 : estimate_token_cost "aaaaaaaa" = 3 := by decide
  have hrev : (["aaaaaaaa", bigId, "bb"] : List String).reverse =
      ["bb", bigId, "aaaaaaaa"] := rfl
  have hw : trimWalk ["bb", bigId, "aaaaaaaa"] 0 = ["bb", "aaaaaaaa"] := by
    simp only [trimWalk, h1, h2, bigId_cost, MAX_MEMORY_TOKENS]
    norm_num
  simp only [enforce_state_limits, hrev, hw]
  rfl

/-- Claim C2 (corrected), amended statement: the reverse walk skips any
identifier whose addition would exceed `MAX_MEMORY_TOKENS` and continues
with the older identifiers, so what holds is that the survivors form a
subsequence of the input (original relative order preserved) whose total
estimated cost stays within the budget. -/
theorem enforce_order_preserving_within_budget (l : List String) :
    (enforce_state_limits l).1.Sublist l ∧
    sumCost (enforce_state_limits l).1 ≤ MAX_MEMORY_TOKENS :=
  ⟨enforce_sublist l, enforce_sum_le l⟩

/-- Claim C9: `enforce_state_limits` is idempotent: applied to its own
surviving list it returns that list unchanged with a trimmed count of
zero. -/
theorem enforce_state_limits_idempotent (l : List String) :
    enforce_state_limits (enforce_state_limits l).1 =
      ((enforce_state_limits l).1, 0) := by
  have hsum : sumCost (trimWalk l.reverse 0) ≤ MAX_MEMORY_TOKENS := by
    simpa using trimWalk_sum_le l.reverse 0 (Nat.zero_le _)
  have hfix : trimWalk (trimWalk l.reverse 0) 0 = trimWalk l.reverse 0 :=
    trimWalk_of_sum_le _ 0 (by simpa using hsum)
  simp [enforce_state_limits, List.reverse_reverse, hfix]

/-! ### Session classification (`process_agent`, lines 1240-1252) -/

/-- A loaded message: normalized integer timestamp plus sanitized text
(the classification loop reads `int(item.get("ts") or 0)`; messages are
embedded with that integer already extracted). -/
structure Msg where
  ts : Int
  text : String
  deriving DecidableEq

/-- Embedding of
`max(int(item.get("ts") or 0) for item in messages) if messages else 0`:
the maximum timestamp of the load, 0 for an empty message list. -/
def latestTs : List Msg → Int
  | [] => 0
  | m :: rest => rest.foldl (fun acc x => max acc x.ts) m.ts

/-- Result of the classification loop: the `new_sessions` and
`updated_sessions` accumulators plus the `session_progress` dict
(modelled as a function, absent key = `none`). -/
structure ClassifyResult where
  newSessions : List String
  updatedSessions : List String
  progress : String → Option Int

/-- One iteration of the classification loop in `process_agent`: look
up `session_progress.get(sid)`; on `None` append to `new_sessions` when
the session has messages; otherwise append to `updated_sessions` when
some message is strictly newer than the stored timestamp; in both cases
unconditionally store the load's latest timestamp. -/
def classifyStep (acc : ClassifyResult) (entry : String × List Msg) :
    ClassifyResult :=
  let sid := entry.1
  let messages := entry.2
  let latest := latestTs messages
  match acc.progress sid with
  | none =>
    { newSessions :=
        if messages.isEmpty then acc.newSessions
        else acc.newSessions ++ [sid]
      updatedSessions := acc.updatedSessions
      progress := fun s => if s = sid then some latest else acc.progress s }
  | some lastSeen =>
    { newSessions := acc.newSessions
      updatedSessions :=
        if messages.any fun m => lastSeen < m.ts then
          acc.updatedSessions ++ [sid]
        else acc.updatedSessions
      progress := fun s => if s = sid then some latest else acc.progress s }

/-- The classification loop of `process_agent` over the session dict
(`sessions.items()` in insertion order; a Python dict never repeats a
key, which the theorems record as a `Nodup` hypothesis on the keys). -/
def classifySessions (sessions : List (String × List Msg))
    (progress0 : String → Option Int) : ClassifyResult :=
  sessions.foldl classifyStep
    { newSessions := [], updatedSessions := [], progress := progress0 }

/-! ### Helper lemmas about `latestTs` -/

theorem foldl_max_lt_iff (l : List Msg) :
    ∀ (a t : Int), (t < l.foldl (fun acc x => max acc x.ts) a) ↔
      t < a ∨ ∃ x ∈ l, t < x.ts := by
  induction l with
  | nil => intro a t; simp
  | cons b l ih =>
    intro a t
    rw [List.foldl_cons, ih, lt_max_iff]
    simp [or_assoc]

theorem lt_latestTs_iff (msgs : List Msg) (t : Int) (h : msgs ≠ []) :
    t < latestTs msgs ↔ ∃ x ∈ msgs, t < x.ts := by
  match msgs with
  | [] => exact absurd rfl h
  | m :: rest =>
    rw [latestTs, foldl_max_lt_iff]
    simp

theorem le_latestTs_of_mem {msgs : List Msg} {x : Msg} (hx : x ∈ msgs) :
    x.ts ≤ latestTs msgs := by
  by_contra hlt
  push_neg at hlt
  have h : msgs ≠ [] := by
    intro he; rw [he] at hx; exact absurd hx (List.not_mem_nil x)
  have := (lt_latestTs_iff msgs (latestTs msgs) h).2 ⟨x, hx, hlt⟩
  exact lt_irrefl _ this

theorem any_lt_iff (msgs : List Msg) (t : Int) :
    (msgs.any fun m => t < m.ts) = true ↔
      msgs ≠ [] ∧ t < latestTs msgs := by
  constructor
  · intro h
    rw [List.any_eq_true] at h
    obtain ⟨x, hx, hlt⟩ := h
    have hne : msgs ≠ [] := by
      intro he; rw [he] at hx; exact absurd hx (List.not_mem_nil x)
    refine ⟨hne, ?_⟩
    rw [lt_latestTs_iff msgs t hne]
    exact ⟨x, hx, by simpa using hlt⟩
  · intro ⟨hne, hlt⟩
    rw [List.any_eq_true]
    rw [lt_latestTs_iff msgs t hne] at hlt
    obtain ⟨x, hx, h⟩ := hlt
    exact ⟨x, hx, by simpa using h⟩

/-! ### Invariance of the fold over unrelated keys -/

theorem foldl_progress_of_not_mem (l : List (String × List Msg)) :
    ∀ (acc : ClassifyResult) (sid : String), sid ∉ l.map Prod.fst →
      (l.foldl classifyStep acc).progress sid = acc.progress sid := by
  induction l with
  | nil => intro acc sid _; rfl
  | cons e rest ih =>
    intro acc sid hmem
    rw [List.map_cons] at hmem
    have hne : sid ≠ e.1 := fun h => hmem (by rw [h]; exact List.mem_cons_self _ _)
    have hrest : sid ∉ rest.map Prod.fst := fun h => hmem (List.mem_cons_of_mem _ h)
    rw [List.foldl_cons, ih _ sid hrest]
    cases hp : acc.progress e.1 <;> simp [classifyStep, hp, hne]

theorem foldl_new_of_not_mem (l : List (String × List Msg)) :
    ∀ (acc : ClassifyResult) (sid : String), sid ∉ l.map Prod.fst →
      (sid ∈ (l.foldl classifyStep acc).newSessions ↔
        sid ∈ acc.newSessions) := by
  induction l with
  | nil => intro acc sid _; rfl
  | cons e rest ih =>
    intro acc sid hmem
    rw [List.map_cons] at hmem
    have hne : sid ≠ e.1 := fun h => hmem (by rw [h]; exact List.mem_cons_self _ _)
    have hrest : sid ∉ rest.map Prod.fst := fun h => hmem (List.mem_cons_of_mem _ h)
    rw [List.foldl_cons, ih _ sid hrest]
    cases hp : acc.progress e.1 <;>
      cases he : e.2.isEmpty <;>
        simp [classifyStep, hp, he, hne]

theorem foldl_updated_of_not_mem (l : List (String × List Msg)) :
    ∀ (acc : ClassifyResult) (sid : String), sid ∉ l.map Prod.fst →
      (sid ∈ (l.foldl classifyStep acc).updatedSessions ↔
        sid ∈ acc.updatedSessions) := by
  induction l with
  | nil => intro acc sid _; rfl
  | cons e rest ih =>
    intro acc sid hmem
    rw [List.map_cons] at hmem
    have hne : sid ≠ e.1 := fun h => hmem (by rw [h]; exact List.mem_cons_self _ _)
    have hrest : sid ∉ rest.map Prod.fst := fun h => hmem (List.mem_cons_of_mem _ h)
    rw [List.foldl_cons, ih _ sid hrest]
    cases hp : acc.progress e.1 with
    | none => simp [classifyStep, hp]
    | some t =>
      simp only [classifyStep, hp]
      split
      · simp [hne]
      · exact Iff.rfl

theorem foldl_progress_of_mem (l : List (String × List Msg)) :
    ∀ (acc : ClassifyResult) (sid : String) (msgs : List Msg),
      (l.map Prod.fst).Nodup → (sid, msgs) ∈ l →
      (l.foldl classifyStep acc).progress sid = some (latestTs msgs) := by
  induction l with
  | nil => intro acc sid msgs _ h; exact absurd h (List.not_mem_nil _)
  | cons e rest ih =>
    obtain ⟨k, ms⟩ := e
    intro acc sid msgs hnd hmem
    rw [List.map_cons, List.nodup_cons] at hnd
    rcases List.mem_cons.1 hmem with heq | hmem2
    · injection heq with h1 h2
      subst h1
      subst h2
      rw [List.foldl_cons, foldl_progress_of_not_mem rest _ sid hnd.1]
      cases hp : acc.progress sid <;> simp [classifyStep, hp]
    · have hne : sid ≠ k := by
        intro h
        apply hnd.1
        rw [← h]
        exact List.mem_map.2 ⟨(sid, msgs), hmem2, rfl⟩
      rw [List.foldl_cons]
      exact ih _ sid msgs hnd.2 hmem2

theorem step_preserves_other_new {acc : ClassifyResult}
    {k : String} {ms : List Msg} {sid : String} (hne : sid ≠ k)
    (h : sid ∉ acc.newSessions) :
    sid ∉ (classifyStep acc (k, ms)).newSessions := by
  cases hp : acc.progress k with
  | none =>
    cases hm : ms.isEmpty <;> simp [classifyStep, hp, hm, h, hne]
  | some t => simp [classifyStep, hp, h]

theorem step_preserves_other_updated {acc : ClassifyResult}
    {k : String} {ms : List Msg} {sid : String} (hne : sid ≠ k)
    (h : sid ∉ acc.updatedSessions) :
    sid ∉ (classifyStep acc (k, ms)).updatedSessions := by
  cases hp : acc.progress k with
  | none => simp [classifyStep, hp, h]
  | some t =>
    simp only [classifyStep, hp]
    split
    · simp [h, hne]
    · exact h

theorem step_progress_other {acc : ClassifyResult}
    {k : String} {ms : List Msg} {sid : String} (hne : sid ≠ k) :
    (classifyStep acc (k, ms)).progress sid = acc.progress sid := by
  cases hp : acc.progress k <;> simp [classifyStep, hp, hne]

theorem foldl_new_iff (l : List (String × List Msg)) :
    ∀ (acc : ClassifyResult) (sid : String) (msgs : List Msg),
      (l.map Prod.fst).Nodup → (sid, msgs) ∈ l → sid ∉ acc.newSessions →
      (sid ∈ (l.foldl classifyStep acc).newSessions ↔
        acc.progress sid = none ∧ msgs ≠ []) := by
  induction l with
  | nil => intro acc sid msgs _ h; exact absurd h (List.not_mem_nil _)
  | cons e rest ih =>
    obtain ⟨k, ms⟩ := e
    intro acc sid msgs hnd hmem hnot
    rw [List.map_cons, List.nodup_cons] at hnd
    rcases List.mem_cons.1 hmem with heq | hmem2
    · injection heq with h1 h2
      subst h1
      subst h2
      rw [List.foldl_cons, foldl_new_of_not_mem rest _ sid hnd.1]
      cases hp : acc.progress sid with
      | none =>
        cases hm : msgs.isEmpty with
        | true =>
          have : msgs = [] := List.isEmpty_iff.1 hm
          simp [classifyStep, hp, hm, hnot, this]
        | false =>
          have : msgs ≠ [] := by
            intro h; rw [h] at hm; exact absurd hm (by decide)
          simp [classifyStep, hp, hm, this]
      | some t => simp [classifyStep, hp, hnot]
    · have hne : sid ≠ k := by
        intro h
        apply hnd.1
        rw [← h]
        exact List.mem_map.2 ⟨(sid, msgs), hmem2, rfl⟩
      rw [List.foldl_cons,
        ih _ sid msgs hnd.2 hmem2 (step_preserves_other_new hne hnot),
        step_progress_other hne]

theorem foldl_updated_iff (l : List (String × List Msg)) :
    ∀ (acc : ClassifyResult) (sid : String) (msgs : List Msg),
      (l.map Prod.fst).Nodup → (sid, msgs) ∈ l → sid ∉ acc.updatedSessions →
      (sid ∈ (l.foldl classifyStep acc).updatedSessions ↔
        msgs ≠ [] ∧ ∃ t, acc.progress sid = some t ∧ t < latestTs msgs) := by
  induction l with
  | nil => intro acc sid msgs _ h; exact absurd h (List.not_mem_nil _)
  | cons e rest ih =>
    obtain ⟨k, ms⟩ := e
    intro acc sid msgs hnd hmem hnot
    rw [List.map_cons, List.nodup_cons] at hnd
    rcases List.mem_cons.1 hmem with heq | hmem2
    · injection heq with h1 h2
      subst h1
      subst h2
      rw [List.foldl_cons, foldl_updated_of_not_mem rest _ sid hnd.1]
      cases hp : acc.progress sid with
      | none => simp [classifyStep, hp, hnot]
      | some t =>
        cases ha : msgs.any fun m => t < m.ts with
        | true =>
          rw [any_lt_iff msgs t] at ha
          have hex : ∃ x ∈ msgs, t < x.ts :=
            (lt_latestTs_iff msgs t ha.1).1 ha.2
          simp [classifyStep, hp, hex, ha.1, ha.2]
        | false =>
          have hna := ha
          rw [← Bool.not_eq_true, any_lt_iff msgs t] at hna
          simp only [classifyStep, hp, ha, if_false, Bool.false_eq_true]
          constructor
          · intro h; exact absurd h hnot
          · intro ⟨hne2, t2, ht2, hlt⟩
            injection ht2 with ht2
            subst ht2
            exact absurd ⟨hne2, hlt⟩ hna
    · have hne : sid ≠ k := by
        intro h
        apply hnd.1
        rw [← h]
        exact List.mem_map.2 ⟨(sid, msgs), hmem2, rfl⟩
      rw [List.foldl_cons,
        ih _ sid msgs hnd.2 hmem2 (step_preserves_other_updated hne hnot),
        step_progress_other hne]

theorem foldl_classify_fixed (l : List (String × List Msg)) :
    ∀ acc : ClassifyResult,
      (∀ e ∈ l, acc.progress e.1 = some (latestTs e.2)) →
      l.foldl classifyStep acc = acc := by
  induction l with
  | nil => intro acc _; rfl
  | cons e rest ih =>
    intro acc h
    obtain ⟨k, ms⟩ := e
    have he := h (k, ms) (List.mem_cons_self _ _)
    have hany : (ms.any fun m => latestTs ms < m.ts) = false := by
      rw [← Bool.not_eq_true, any_lt_iff]
      intro ⟨_, hlt⟩
      exact lt_irrefl _ hlt
    have hstep : classifyStep acc (k, ms) = acc := by
      have hfun : (fun s => if s = k then some (latestTs ms)
          else acc.progress s) = acc.progress := by
        funext s
        by_cases hs : s = k
        · rw [if_pos hs, hs, he]
        · rw [if_neg hs]
      simp only [classifyStep, he, hany, Bool.false_eq_true, if_false, hfun]
    rw [List.foldl_cons, hstep]
    exact ih acc fun e2 he2 => h e2 (List.mem_cons_of_mem _ he2)

/-! ### Claim theorems about classification -/

/-- Claim C3: in one run, a session present in the load is classified
new exactly when it is absent from progress and has at least one
message; updated exactly when it is present in progress and some
message (equivalently, the load's maximum timestamp) strictly exceeds
the stored timestamp; a session with no messages is neither; and no
identifier is classified both new and updated. -/
theorem classification_criteria (sessions : List (String × List Msg))
    (p0 : String → Option Int) (sid : String) (msgs : List Msg)
    (hnd : (sessions.map Prod.fst).Nodup) (hmem : (sid, msgs) ∈ sessions) :
    (sid ∈ (classifySessions sessions p0).newSessions ↔
      p0 sid = none ∧ msgs ≠ []) ∧
    (sid ∈ (classifySessions sessions p0).updatedSessions ↔
      msgs ≠ [] ∧ ∃ t, p0 sid = some t ∧ t < latestTs msgs) ∧
    ¬ (sid ∈ (classifySessions sessions p0).newSessions ∧
        sid ∈ (classifySessions sessions p0).updatedSessions) := by
  have hnew := foldl_new_iff sessions
    { newSessions := [], updatedSessions := [], progress := p0 }
    sid msgs hnd hmem (List.not_mem_nil sid)
  have hupd := foldl_updated_iff sessions
    { newSessions := [], updatedSessions := [], progress := p0 }
    sid msgs hnd hmem (List.not_mem_nil sid)
  refine ⟨hnew, hupd, ?_⟩
  intro ⟨h1, h2⟩
  unfold classifySessions at h1 h2
  rw [hnew] at h1
  rw [hupd] at h2
  obtain ⟨_, t, ht, _⟩ := h2
  rw [h1.1] at ht
  exact Option.noConfusion ht

/-- Witness for C3 on a concrete load: session s1 (one message, not in
progress) is new and not updated; the hypotheses are discharged by
evaluation. -/
theorem classification_criteria_witness :
    ("s1" ∈ (classifySessions
        [("s1", [⟨100, "please add tests"⟩]), ("s2", [⟨5, "x"⟩])]
        (fun s => if s = "s2" then some 3 else none)).newSessions ↔
      (if "s1" = "s2" then some (3 : Int) else none) = none ∧
        ([⟨100, "please add tests"⟩] : List Msg) ≠ []) ∧
    ("s1" ∈ (classifySessions
        [("s1", [⟨100, "please add tests"⟩]), ("s2", [⟨5, "x"⟩])]
        (fun s => if s = "s2" then some 3 else none)).updatedSessions ↔
      ([⟨100, "please add tests"⟩] : List Msg) ≠ [] ∧
        ∃ t, (if "s1" = "s2" then some (3 : Int) else none) = some t ∧
          t < latestTs [⟨100, "please add tests"⟩]) ∧
    ¬ ("s1" ∈ (classifySessions
        [("s1", [⟨100, "please add tests"⟩]), ("s2", [⟨5, "x"⟩])]
        (fun s => if s = "s2" then some 3 else none)).newSessions ∧
        "s1" ∈ (classifySessions
        [("s1", [⟨100, "please add tests"⟩]), ("s2", [⟨5, "x"⟩])]
        (fun s => if s = "s2" then some 3 else none)).updatedSessions) :=
  classification_criteria
    [("s1", [⟨100, "please add tests"⟩]), ("s2", [⟨5, "x"⟩])]
    (fun s => if s = "s2" then some 3 else none)
    "s1" [⟨100, "please add tests"⟩] (by decide) (by decide)

/-- Claim C4: classification is idempotent: a second run on the same
load, starting from the progress produced by the first run, classifies
nothing as new or updated and leaves progress unchanged. -/
theorem classify_idempotent (sessions : List (String × List Msg))
    (p0 : String → Option Int)
    (hnd : (sessions.map Prod.fst).Nodup) :
    (classifySessions sessions
        (classifySessions sessions p0).progress).newSessions = [] ∧
    (classifySessions sessions
        (classifySessions sessions p0).progress).updatedSessions = [] ∧
    (classifySessions sessions
        (classifySessions sessions p0).progress).progress =
      (classifySessions sessions p0).progress := by
  have hfix := foldl_classify_fixed sessions
    { newSessions := [], updatedSessions := [],
      progress := (classifySessions sessions p0).progress }
    (fun e he => foldl_progress_of_mem sessions _ e.1 e.2 hnd he)
  unfold classifySessions at hfix ⊢
  rw [hfix]
  exact ⟨rfl, rfl, rfl⟩

/-- Witness for C4 on a concrete two-session load. -/
theorem classify_idempotent_witness :
    (classifySessions [("s1", [⟨100, "a"⟩]), ("s2", [⟨5, "b"⟩])]
        (classifySessions [("s1", [⟨100, "a"⟩]), ("s2", [⟨5, "b"⟩])]
          (fun _ => none)).progress).newSessions = [] ∧
    (classifySessions [("s1", [⟨100, "a"⟩]), ("s2", [⟨5, "b"⟩])]
        (classifySessions [("s1", [⟨100, "a"⟩]), ("s2", [⟨5, "b"⟩])]
          (fun _ => none)).progress).updatedSessions = [] ∧
    (classifySessions [("s1", [⟨100, "a"⟩]), ("s2", [⟨5, "b"⟩])]
        (classifySessions [("s1", [⟨100, "a"⟩]), ("s2", [⟨5, "b"⟩])]
          (fun _ => none)).progress).progress =
      (classifySessions [("s1", [⟨100, "a"⟩]), ("s2", [⟨5, "b"⟩])]
        (fun _ => none)).progress :=
  classify_idempotent [("s1", [⟨100, "a"⟩]), ("s2", [⟨5, "b"⟩])]
    (fun _ => none) (by decide)

/-- Claim C5, counterexample to the original statement: the run
unconditionally overwrites the stored timestamp with the maximum of the
*current* load, so a load containing only an older message (ts 50,
stored 100) makes progress decrease from 100 to 50. -/
theorem progress_monotone_counterexample :
    (classifySessions [("s", [⟨50, "old"⟩])]
        (fun s => if s = "s" then some 100 else none)).progress "s" =
      some 50 ∧ ¬ ((100 : Int) ≤ 50) := by
  constructor
  · rfl
  · decide

/-- Claim C5 (corrected), amended statement: progress is monotonic for
cumulative loads: an identifier absent from the current load keeps its
stored timestamp, and an identifier present in the load whose messages
include one at least as new as the stored timestamp ends with a stored
value (the load's maximum) that is greater than or equal to its prior
value.  Without that cumulativity condition the stored value can
decrease. -/
theorem progress_monotone_cumulative (sessions : List (String × List Msg))
    (p0 : String → Option Int)
    (hnd : (sessions.map Prod.fst).Nodup) :
    (∀ sid, sid ∉ sessions.map Prod.fst →
      (classifySessions sessions p0).progress sid = p0 sid) ∧
    (∀ sid msgs t, (sid, msgs) ∈ sessions → p0 sid = some t →
      (∃ m ∈ msgs, t ≤ m.ts) →
      ∃ t2, (classifySessions sessions p0).progress sid = some t2 ∧
        t ≤ t2) := by
  constructor
  · intro sid hsid
    exact foldl_progress_of_not_mem sessions _ sid hsid
  · intro sid msgs t hmem _ hcum
    obtain ⟨m, hm, hle⟩ := hcum
    refine ⟨latestTs msgs, ?_, le_trans hle (le_latestTs_of_mem hm)⟩
    exact foldl_progress_of_mem sessions _ sid msgs hnd hmem

/-- Witness for the amended C5: a cumulative load (stored 100, a newer
message with ts 200 present) keeps progress non-decreasing, and an
absent identifier keeps its stored value. -/
theorem progress_monotone_cumulative_witness :
    (∀ sid, sid ∉ ([("s", [⟨100, "a"⟩, ⟨200, "b"⟩])] :
        List (String × List Msg)).map Prod.fst →
      (classifySessions [("s", [⟨100, "a"⟩, ⟨200, "b"⟩])]
        (fun s => if s = "s" then some 100 else none)).progress sid =
        (if sid = "s" then some (100 : Int) else none)) ∧
    (∀ sid msgs t,
      (sid, msgs) ∈ ([("s", [⟨100, "a"⟩, ⟨200, "b"⟩])] :
        List (String × List Msg)) →
      (if sid = "s" then some (100 : Int) else none) = some t →
      (∃ m ∈ msgs, t ≤ m.ts) →
      ∃ t2, (classifySessions [("s", [⟨100, "a"⟩, ⟨200, "b"⟩])]
        (fun s => if s = "s" then some 100 else none)).progress sid =
          some t2 ∧ t ≤ t2) :=
  progress_monotone_cumulative [("s", [⟨100, "a"⟩, ⟨200, "b"⟩])]
    (fun s => if s = "s" then some 100 else none) (by decide)

/-! ### Timestamp normalization (`_normalize_timestamp`, lines 802-824)

The loader hands `_normalize_timestamp` a JSON value: an int/float, a
string, or nothing.  The string branch strips the value, parses an
all-digit string as a bare integer, and otherwise calls Python's
`datetime.fromisoformat` (after rewriting a trailing `Z` into `+00:00`),
assumes UTC for naive datetimes, and falls back to 0 on `ValueError`.
`fromisoformat` is modelled below for the extended ISO-8601 format
`YYYY-MM-DD[{T or space}HH:MM[:SS]][{+ or -}HH:MM]` with Python's field
validation (year 1-9999, month 1-12, day within the month, time fields
in range); other spellings accepted by newer CPython (week dates,
compact forms, fractional seconds) are outside this model. -/

/-- Python `str.strip` whitespace set (space, tab, newline, carriage
return, vertical tab, form feed). -/
def pyIsSpace (c : Char) : Bool :=
  c = ' ' ∨ c = '\t' ∨ c = '\n' ∨ c = '\r' ∨ c = '\x0b' ∨ c = '\x0c'

/-- Python `str.strip()`: drop leading and trailing whitespace. -/
def pyStrip (s : String) : String :=
  String.mk (((s.data.dropWhile pyIsSpace).reverse.dropWhile pyIsSpace).reverse)

/-- Python `str.isdigit()` restricted to ASCII: nonempty and
all-digits. -/
def strIsDigit (s : String) : Bool :=
  !s.data.isEmpty && s.data.all Char.isDigit

def digitVal (c : Char) : Nat := c.toNat - '0'.toNat

/-- Python `int(...)` on an all-digit string. -/
def natOfDigits (cs : List Char) : Nat :=
  cs.foldl (fun acc c => acc * 10 + digitVal c) 0

/-- Python `str.endswith("Z")`. -/
def endsWithZ (s : String) : Bool := s.data.getLast? = some 'Z'

/-- Python `cleaned[:-1]`. -/
def pyDropLast (s : String) : String := String.mk s.data.dropLast

/-- Parsed `datetime` fields; `offsetMinutes = none` models a naive
datetime (no `tzinfo`). -/
structure PyDateTime where
  year : Nat
  month : Nat
  day : Nat
  hour : Nat
  minute : Nat
  second : Nat
  offsetMinutes : Option Int
  deriving DecidableEq

def parseDigitsFixed (n : Nat) (cs : List Char) :
    Option (Nat × List Char) :=
  let pre := cs.take n
  if pre.length = n ∧ pre.all Char.isDigit then
    some (natOfDigits pre, cs.drop n)
  else none

def expectChar (c : Char) : List Char → Option (List Char)
  | x :: rest => if x = c then some rest else none
  | [] => none

def isLeap (y : Nat) : Bool :=
  (y % 4 == 0 && y % 100 != 0) || y % 400 == 0

def daysInMonth (y m : Nat) : Nat :=
  if m = 2 then (if isLeap y then 29 else 28)
  else if m = 4 ∨ m = 6 ∨ m = 9 ∨ m = 11 then 30
  else 31

/-- Parse a UTC-offset suffix: empty input means a naive datetime,
otherwise a sign, two hour digits, a colon and two minute digits must
consume the rest of the input. -/
def parseOffset : List Char → Option (Option Int)
  | [] => some none
  | '+' :: rest => do
    let (h, rest2) ← parseDigitsFixed 2 rest
    let rest3 ← expectChar ':' rest2
    let (m, rest4) ← parseDigitsFixed 2 rest3
    if rest4.isEmpty ∧ h ≤ 23 ∧ m ≤ 59 then
      some (some ((h * 60 + m : Nat) : Int))
    else none
  | '-' :: rest => do
    let (h, rest2) ← parseDigitsFixed 2 rest
    let rest3 ← expectChar ':' rest2
    let (m, rest4) ← parseDigitsFixed 2 rest3
    if rest4.isEmpty ∧ h ≤ 23 ∧ m ≤ 59 then
      some (some (-((h * 60 + m : Nat) : Int)))
    else none
  | _ => none

/-- Parse `HH:MM[:SS]` followed by an optional offset. -/
def parseTime (cs : List Char) :
    Option (Nat × Nat × Nat × Option Int) := do
  let (h, cs2) ← parseDigitsFixed 2 cs
  let cs3 ← expectChar ':' cs2
  let (mi, cs4) ← parseDigitsFixed 2 cs3
  match cs4 with
  | ':' :: cs5 => do
    let (sec, cs6) ← parseDigitsFixed 2 cs5
    let off ← parseOffset cs6
    if h ≤ 23 ∧ mi ≤ 59 ∧ sec ≤ 59 then some (h, mi, sec, off) else none
  | rest => do
    let off ← parseOffset rest
    if h ≤ 23 ∧ mi ≤ 59 then some (h, mi, 0, off) else none

/-- Model of Python `datetime.fromisoformat` on the extended format
(see the section comment); `none` models `ValueError`. -/
def fromisoformat (s : String) : Option PyDateTime := do
  let cs := s.data
  let (y, cs2) ← parseDigitsFixed 4 cs
  let cs3 ← expectChar '-' cs2
  let (mo, cs4) ← parseDigitsFixed 2 cs3
  let cs5 ← expectChar '-' cs4
  let (d, cs6) ← parseDigitsFixed 2 cs5
  if 1 ≤ y ∧ 1 ≤ mo ∧ mo ≤ 12 ∧ 1 ≤ d ∧ d ≤ daysInMonth y mo then
    match cs6 with
    | [] => some ⟨y, mo, d, 0, 0, 0, none⟩
    | sep :: rest =>
      if sep = 'T' ∨ sep = ' ' then do
        let (h, mi, sec, off) ← parseTime rest
        some ⟨y, mo, d, h, mi, sec, off⟩
      else none
  else none

/-- Days between 1970-01-01 and year/month/day in the proleptic
Gregorian calendar (the standard civil-from-days formula, exact for the
years 1-9999 admitted by the parser). -/
def daysFromCivil (y m d : Nat) : Nat :=
  let yAdj := if m ≤ 2 then y - 1 else y
  let era := yAdj / 400
  let yoe := yAdj % 400
  let mp := (m + 9) % 12
  let doy := (153 * mp + 2) / 5 + (d - 1)
  let doe := yoe * 365 + yoe / 4 - yoe / 100 + doy
  era * 146097 + doe

/-- `int(dt.timestamp())` for a parsed datetime, after the
`dt.replace(tzinfo=timezone.utc)` step applied to naive datetimes
(`offsetMinutes.getD 0`): seconds since the epoch. -/
def dtEpoch (dt : PyDateTime) : Int :=
  ((daysFromCivil dt.year dt.month dt.day : Nat) : Int) * 86400 - 719468 * 86400
    + ((dt.hour * 3600 + dt.minute * 60 + dt.second : Nat) : Int)
    - (dt.offsetMinutes.getD 0) * 60

/-- The JSON value handed to `_normalize_timestamp`: a number, a
string, or an absent/other value (`None`). -/
inductive RawTs where
  | num (n : Int)
  | str (s : String)
  | null
  deriving DecidableEq

/-- The numeric branch of `_normalize_timestamp` (also reached by the
recursive call on `int(cleaned)`): values above `10**12` are milliseconds
and floor-divided by 1000. -/
def normNum (value : Int) : Int :=
  if value > 10 ^ 12 then value.fdiv 1000 else value

/-- Embedding of `_normalize_timestamp`. -/
def normalize_timestamp : RawTs → Int
  | .num n => normNum n
  | .str s =>
    if s = "" then 0
    else
      let cleaned := pyStrip s
      if strIsDigit cleaned then normNum ((natOfDigits cleaned.data : Nat) : Int)
      else
        let cleaned2 :=
          if endsWithZ cleaned then pyDropLast cleaned ++ "+00:00" else cleaned
        match fromisoformat cleaned2 with
        | some dt => dtEpoch dt
        | none => 0
  | .null => 0

theorem normZ_eq (b : String)
    (hZ : pyStrip (b ++ "Z") = b ++ "Z")
    (hP : pyStrip (b ++ "+00:00") = b ++ "+00:00") :
    normalize_timestamp (.str (b ++ "Z")) =
      normalize_timestamp (.str (b ++ "+00:00")) := by
  obtain ⟨bd⟩ := b
  have hzd : ("Z" : String).data = ['Z'] := rfl
  have hpd : ("+00:00" : String).data = ['+', '0', '0', ':', '0', '0'] := rfl
  have hne1 : ¬ (String.mk bd ++ "Z" = "") := by
    intro h
    have h2 := congrArg String.data h
    simp [String.data_append, hzd] at h2
  have hne2 : ¬ (String.mk bd ++ "+00:00" = "") := by
    intro h
    have h2 := congrArg String.data h
    simp [String.data_append, hpd] at h2
  have hd1 : strIsDigit (String.mk bd ++ "Z") = false := by
    simp [strIsDigit, String.data_append, hzd, List.all_append]
  have hd2 : strIsDigit (String.mk bd ++ "+00:00") = false := by
    simp [strIsDigit, String.data_append, hpd, List.all_append]
  have hez1 : endsWithZ (String.mk bd ++ "Z") = true := by
    simp [endsWithZ, String.data_append, hzd]
  have hez2 : endsWithZ (String.mk bd ++ "+00:00") = false := by
    simp [endsWithZ, String.data_append, hpd]
  have hdrop : pyDropLast (String.mk bd ++ "Z") ++ "+00:00" =
      String.mk bd ++ "+00:00" := by
    show String.mk ((bd ++ ['Z']).dropLast ++ ['+', '0', '0', ':', '0', '0']) =
      String.mk (bd ++ ['+', '0', '0', ':', '0', '0'])
    rw [List.dropLast_concat]
  simp only [normalize_timestamp, if_neg hne1, if_neg hne2, hZ, hP, hd1, hd2,
    hez1, hez2, Bool.false_eq_true, if_false, if_true, hdrop]

/-- Claim C6: timestamp normalization: numeric values above `10**12`
are milliseconds and floor-divided by 1000 (in particular
1700000000000 normalizes to 1700000000); an all-digit string is parsed
as a bare integer and re-normalized; a trailing `Z` is rewritten to
`+00:00` before ISO-8601 parsing (so both spellings normalize alike);
a naive ISO datetime is assumed UTC (all three spellings of
2023-01-01T00:00:00 give epoch 1672531200); unparsable or absent
values normalize to 0. -/
theorem normalize_timestamp_spec :
    (∀ n : Int, 10 ^ 12 < n →
      normalize_timestamp (.num n) = n.fdiv 1000) ∧
    normalize_timestamp (.num 1700000000000) = 1700000000 ∧
    (∀ s : String, ¬ s = "" → strIsDigit (pyStrip s) = true →
      normalize_timestamp (.str s) =
        normNum ((natOfDigits (pyStrip s).data : Nat) : Int)) ∧
    (∀ b : String, pyStrip (b ++ "Z") = b ++ "Z" →
      pyStrip (b ++ "+00:00") = b ++ "+00:00" →
      normalize_timestamp (.str (b ++ "Z")) =
        normalize_timestamp (.str (b ++ "+00:00"))) ∧
    normalize_timestamp (.str "2023-01-01T00:00:00Z") = 1672531200 ∧
    normalize_timestamp (.str "2023-01-01T00:00:00+00:00") = 1672531200 ∧
    normalize_timestamp (.str "2023-01-01T00:00:00") = 1672531200 ∧
    normalize_timestamp (.str "not-a-date") = 0 ∧
    normalize_timestamp .null = 0 := by
  refine ⟨?_, by decide, ?_, normZ_eq, by decide, by decide, by decide,
    by decide, rfl⟩
  · intro n h
    show normNum n = n.fdiv 1000
    unfold normNum
    rw [if_pos h]
  · intro s h1 h2
    simp [normalize_timestamp, h1, h2]

/-- Witness for C6, instantiating the quantified parts: the millisecond
value 2000000000000, the padded digit string "  123  ", and the base
string 2023-01-01T00:00:00 for the Z-rewrite equivalence. -/
theorem normalize_timestamp_spec_witness :
    (10 ^ 12 < (2000000000000 : Int) ∧
      normalize_timestamp (.num 2000000000000) =
        (2000000000000 : Int).fdiv 1000) ∧
    (¬ ("  123  " : String) = "" ∧
      strIsDigit (pyStrip "  123  ") = true ∧
      normalize_timestamp (.str "  123  ") =
        normNum ((natOfDigits (pyStrip "  123  ").data : Nat) : Int)) ∧
    (pyStrip ("2023-01-01T00:00:00" ++ "Z") =
        "2023-01-01T00:00:00" ++ "Z" ∧
      pyStrip ("2023-01-01T00:00:00" ++ "+00:00") =
        "2023-01-01T00:00:00" ++ "+00:00" ∧
      normalize_timestamp (.str ("2023-01-01T00:00:00" ++ "Z")) =
        normalize_timestamp (.str ("2023-01-01T00:00:00" ++ "+00:00"))) :=
  ⟨⟨by decide, normalize_timestamp_spec.1 2000000000000 (by decide)⟩,
   ⟨by decide, by decide,
     normalize_timestamp_spec.2.2.1 "  123  " (by decide) (by decide)⟩,
   ⟨by decide, by decide,
     normalize_timestamp_spec.2.2.2.1 "2023-01-01T00:00:00"
       (by decide) (by decide)⟩⟩


/-! ### Persisted state loading (`load_state`, lines 910-921) -/

/-- JSON values as produced by `json.load` (numbers restricted to the
integers that actually occur in the state file). -/
inductive Json where
  | null
  | bool (b : Bool)
  | num (n : Int)
  | str (s : String)
  | arr (xs : List Json)
  | obj (fields : List (String × Json))

/-- Python `dict.setdefault(k, v)`: keep the dict unchanged when the
key is present, otherwise add the binding (at the end, in insertion
order). -/
def setdefault (fields : List (String × Json)) (k : String) (v : Json) :
    List (String × Json) :=
  if k ∈ fields.map Prod.fst then fields else fields ++ [(k, v)]

/-- The four `setdefault` calls at the end of `load_state`, in source
order. -/
def applyStateDefaults (fields : List (String × Json)) :
    List (String × Json) :=
  setdefault
    (setdefault
      (setdefault
        (setdefault fields "processed_sessions" (.arr []))
        "dynamic_patterns" (.arr []))
      "trimmed_sessions" (.num 0))
    "session_progress" (.obj [])

/-- Embedding of `load_state`.  The file system and `json.load` are
modelled by the argument: `none` for an absent file, `some (.error e)`
for a file whose contents fail to parse (in Python `json.load` raises
and `load_state` propagates the exception; `.error` models that fatal
propagation), `some (.ok j)` for a parsed value.  A parsed value that
is not an object would make the Python `setdefault` calls raise
`AttributeError`, modelled as an error as well. -/
def load_state (file : Option (Except String Json)) :
    Except String (List (String × Json)) :=
  match file with
  | none => .ok (applyStateDefaults [])
  | some (.error e) => .error e
  | some (.ok (Json.obj fields)) => .ok (applyStateDefaults fields)
  | some (.ok _) => .error "persisted state is not a JSON object"

/-- Claim C7: an absent state file yields the empty defaults (empty
processed-session list, empty dynamic-pattern list, zero trimmed count,
empty progress mapping) without error, while a malformed state file
propagates the parse error as a fatal result instead of silently
resetting to defaults. -/
theorem load_state_spec :
    load_state none =
      .ok [("processed_sessions", .arr []), ("dynamic_patterns", .arr []),
        ("trimmed_sessions", .num 0), ("session_progress", .obj [])] ∧
    ∀ e, load_state (some (.error e)) = .error e := by
  exact ⟨rfl, fun e => rfl⟩

/-! ### Dynamic pattern discovery (`discover_patterns_with_claude`
accept loop, lines 748-777, and the pattern bookkeeping in
`process_agent`, lines 1226 and 1258-1298) -/

/-- A pattern (static or dynamic): identifier, title, keywords,
guidance bullets. -/
structure Pattern where
  identifier : String
  title : String
  keywords : List String
  bullets : List String
  deriving DecidableEq

/-- One entry of the JSON array returned by the LLM call: `title`,
`summary`, `guidance`, `keywords` (absent fields = defaults, as read by
`entry.get`). -/
structure Candidate where
  title : String
  summary : String
  guidance : List String
  keywords : List String
  deriving DecidableEq

/-- Python `str.lower()` (ASCII model). -/
def pyLower (s : String) : String := String.mk (s.data.map Char.toLower)

/-- Embedding of `truncate_text`: keep the value when within the limit,
otherwise cut to `limit - 3` characters and append an ellipsis. -/
def truncate_text (value : String) (limit : Nat) : String :=
  if value.length ≤ limit then value
  else String.mk (value.data.take (limit - 3)) ++ "..."

/-- Modelled from the spec: `slugify` is called by the source
(`identifier = f"dynamic-{slugify(title)}"`) but defined in a script
generation outside `src/`; the spec only requires a stable slug of the
title, modelled as lowercasing with non-alphanumerics mapped to
hyphens.  No claim depends on its exact output. -/
def slugify (title : String) : String :=
  String.mk (title.data.map fun c =>
    if c.isAlphanum then c.toLower else '-')

/-- The candidate-acceptance loop shared by both discovery backends
(lines 751-775): stop as soon as `capacity` patterns were accepted;
skip entries with an empty or duplicate (case-insensitive) title, no
usable guidance, or no keywords; otherwise append the built pattern and
remember the lowered title.  `existing` holds the already-lowered
existing titles. -/
def accept_candidates (capacity : Nat) (existing : List String) :
    List Candidate → List String → List Pattern → List Pattern
  | [], _, patterns => patterns
  | entry :: rest, seen_titles, patterns =>
    if capacity ≤ patterns.length then patterns
    else
      let title := pyStrip entry.title
      if title = "" ∨ pyLower title ∈ existing ∨ pyLower title ∈ seen_titles
      then accept_candidates capacity existing rest seen_titles patterns
      else
        let summary := pyStrip entry.summary
        let guidance :=
          if entry.guidance.isEmpty then
            (if summary = "" then [] else [summary])
          else entry.guidance
        let guidance_lines :=
          (guidance.filter fun item => ¬ pyStrip item = "").map
            fun item => truncate_text (pyStrip item) 180
        if guidance_lines.isEmpty then
          accept_candidates capacity existing rest seen_titles patterns
        else
          let keywords := entry.keywords.map fun k =>
            truncate_text (pyStrip (pyLower k)) 40
          if keywords.isEmpty then
            accept_candidates capacity existing rest seen_titles patterns
          else
            accept_candidates capacity existing rest
              (pyLower title :: seen_titles)
              (patterns ++ [{ identifier := "dynamic-" ++ slugify title
                              title := title
                              keywords := keywords.take 6
                              bullets := guidance_lines.take 3 }])

/-- Embedding of `discover_patterns_with_claude` after its external
effects: the early returns for non-positive capacity or no touched
sessions, the best-effort failures (missing key, empty excerpts,
transport error, unparsable response — all collapsed into
`parsed = none`), then the acceptance loop with the lowered existing
titles. -/
def discover_patterns_with_claude (parsed : Option (List Candidate))
    (existing_titles : List String) (capacity : Int)
    (has_session_ids : Bool) : List Pattern :=
  if capacity ≤ 0 ∨ ¬ has_session_ids then []
  else
    match parsed with
    | none => []
    | some entries =>
      accept_candidates capacity.toNat (existing_titles.map pyLower)
        entries [] []

/-- The pattern bookkeeping of one `process_agent` run: start from the
static patterns plus the dynamic patterns loaded from state, compute
`remaining_pattern_slots = MAX_PATTERNS - len(patterns)`, and extend by
the discovery result only when the LLM is enabled, some session was
touched, and slots remain. -/
def run_pattern_update (staticPatterns dynamicPatterns : List Pattern)
    (touched : Bool) (parsed : Option (List Candidate))
    (llm_disabled : Bool) : List Pattern :=
  let patterns := staticPatterns ++ dynamicPatterns
  let remaining : Int := (MAX_PATTERNS : Int) - patterns.length
  if llm_disabled then patterns
  else if touched ∧ remaining > 0 then
    patterns ++ discover_patterns_with_claude parsed
      (patterns.map Pattern.title) remaining touched
  else patterns

theorem accept_candidates_length (capacity : Nat)
    (existing : List String) (entries : List Candidate) :
    ∀ seen_titles patterns, patterns.length ≤ capacity →
      (accept_candidates capacity existing entries seen_titles
        patterns).length ≤ capacity := by
  induction entries with
  | nil => intro seen patterns h; exact h
  | cons entry rest ih =>
    intro seen patterns h
    simp only [accept_candidates]
    by_cases hc : capacity ≤ patterns.length
    · rw [if_pos hc]; exact h
    · rw [if_neg hc]
      have hlt : patterns.length < capacity := Nat.lt_of_not_le hc
      repeat' split
      all_goals
        first
        | exact ih _ _ h
        | (apply ih; rw [List.length_append]; simpa using hlt)

/-- Claim C8: starting a run whose loaded state has at most
`MAX_PATTERNS` patterns (static plus dynamic), the pattern list after
the run, including any patterns accepted from dynamic discovery, never
exceeds `MAX_PATTERNS` (= 20). -/
theorem pattern_count_cap (staticPatterns dynamicPatterns : List Pattern)
    (touched : Bool) (parsed : Option (List Candidate))
    (llm_disabled : Bool)
    (h : (staticPatterns ++ dynamicPatterns).length ≤ MAX_PATTERNS) :
    (run_pattern_update staticPatterns dynamicPatterns touched parsed
      llm_disabled).length ≤ MAX_PATTERNS ∧ MAX_PATTERNS = 20 := by
  refine ⟨?_, rfl⟩
  simp only [run_pattern_update]
  split
  · exact h
  · split
    · rename_i hcond
      obtain ⟨htouch, hrem⟩ := hcond
      rw [List.length_append]
      have hnotskip : ¬ ((MAX_PATTERNS : Int) -
          (staticPatterns ++ dynamicPatterns).length ≤ 0 ∨
          ¬ touched = true) := by
        push_neg
        exact ⟨by omega, htouch⟩
      simp only [discover_patterns_with_claude]
      rw [if_neg hnotskip]
      cases parsed with
      | none => simpa using h
      | some entries =>
        have hlen := accept_candidates_length
          ((MAX_PATTERNS : Int) -
            (staticPatterns ++ dynamicPatterns).length).toNat
          (((staticPatterns ++ dynamicPatterns).map Pattern.title).map
            pyLower)
          entries [] [] (Nat.zero_le _)
        simp only [MAX_PATTERNS] at h hlen ⊢
        omega
    · exact h

/-- Witness for C8: an in-budget start (no patterns at all, discovery
disabled) stays within the cap. -/
theorem pattern_count_cap_witness :
    (([] ++ [] : List Pattern)).length ≤ MAX_PATTERNS ∧
    ((run_pattern_update [] [] false none false).length ≤ MAX_PATTERNS ∧
      MAX_PATTERNS = 20) :=
  ⟨by decide, pattern_count_cap [] [] false none false (by decide)⟩


/-! ### Pattern statistics (`build_stats`, lines 978-1016) -/

/-- Python `sep.join(xs)`. -/
def joinWith (sep : String) : List String → String
  | [] => ""
  | x :: rest => rest.foldl (fun acc y => acc ++ sep ++ y) x

/-- Python substring test `needle in hay`. -/
def strContains (hay needle : String) : Bool :=
  decide (List.IsInfix needle.data hay.data)

/-- Embedding of `extract_text`. -/
def extract_text (messages : List Msg) : List String :=
  messages.map Msg.text

/-- The lower-cased newline-joined session text
(`"\n".join(text_messages).lower()`). -/
def sessionBlob (messages : List Msg) : String :=
  pyLower (joinWith "\n" (extract_text messages))

/-- A session matches a pattern when some keyword occurs in its blob. -/
def pattern_matches (pat : Pattern) (messages : List Msg) : Bool :=
  pat.keywords.any fun k => strContains (sessionBlob messages) k

/-- Python `str.split()` (split on whitespace runs, dropping empties). -/
def pySplitWS (s : String) : List String :=
  ((s.data.foldr (fun c acc =>
    if pyIsSpace c then [] :: acc
    else
      match acc with
      | [] => [[c]]
      | w :: ws => (c :: w) :: ws) []).filter
        (fun w => ¬ w.isEmpty)).map String.mk

/-- The snippet normalization
`" ".join(str(snippet).strip().split())[:160]`. -/
def collapseSnippet (snippet : String) : String :=
  String.mk ((joinWith " " (pySplitWS (pyStrip snippet))).data.take 160)

structure ExampleEntry where
  session_id : String
  snippet : String
  deriving DecidableEq

structure PatternStats where
  count : Nat
  examples : List ExampleEntry
  deriving DecidableEq

/-- Whether one message's lowered text contains a keyword (the
generator condition inside `next(...)`). -/
def msgMatches (pat : Pattern) (m : Msg) : Bool :=
  pat.keywords.any fun k => strContains (pyLower m.text) k

/-- The example snippet: the first message whose lowered text contains
a keyword, else `messages[0]` (whose Python access would raise
IndexError for an empty message list; the loader never produces empty
sessions, and the model returns "" there). -/
def pickSnippet (pat : Pattern) (messages : List Msg) : String :=
  match messages.find? (msgMatches pat) with
  | some m => m.text
  | none => (messages.head?.map Msg.text).getD ""

/-- Body of the per-session loop in `build_stats`, after the scope
filter: record the session id in `matched_sessions` and, while fewer
than 3 examples exist, append an example entry. -/
def stats_step_core (pat : Pattern)
    (acc : List String × List ExampleEntry) (entry : String × List Msg) :
    List String × List ExampleEntry :=
  if pattern_matches pat entry.2 = true then
    (acc.1 ++ [entry.1],
      if acc.2.length < 3 then
        acc.2 ++ [⟨entry.1, collapseSnippet (pickSnippet pat entry.2)⟩]
      else acc.2)
  else acc

/-- The per-session loop including the scope filter
`if processed_set and sid not in processed_set: continue`
(the set built from `processed_ids` is empty exactly when the list
is). -/
def stats_step (processed_ids : List String) (pat : Pattern)
    (acc : List String × List ExampleEntry) (entry : String × List Msg) :
    List String × List ExampleEntry :=
  if ¬ processed_ids = [] ∧ ¬ entry.1 ∈ processed_ids then acc
  else stats_step_core pat acc entry

/-- Embedding of one pattern's entry in `build_stats`:
`count = len(set(matched_sessions))`, plus the collected examples. -/
def statsFor (sessions : List (String × List Msg))
    (processed_ids : List String) (pat : Pattern) : PatternStats :=
  let r := sessions.foldl (stats_step processed_ids pat) ([], [])
  ⟨(dedupFirst [] r.1).length, r.2⟩

/-- Embedding of `build_stats`: the stats dict in pattern order, keyed
by pattern identifier (modelled as an association list; the Python dict
coincides with it whenever identifiers are distinct). -/
def build_stats (sessions : List (String × List Msg))
    (processed_ids : List String) (patterns : List Pattern) :
    List (String × PatternStats) :=
  patterns.map fun pat => (pat.identifier, statsFor sessions processed_ids pat)

/-- Following the spec's words for the empty-scope case, for comparison
with `build_stats`: no filtering at all, every session in the mapping
contributes to counts and examples. -/
def statsForAllSessions (sessions : List (String × List Msg))
    (pat : Pattern) : PatternStats :=
  let r := sessions.foldl (stats_step_core pat) ([], [])
  ⟨(dedupFirst [] r.1).length, r.2⟩

theorem stats_step_nil (pat : Pattern) :
    stats_step [] pat = stats_step_core pat := by
  funext acc entry
  simp [stats_step]

theorem core_fold_fst (pat : Pattern) (l : List (String × List Msg)) :
    ∀ acc, (l.foldl (stats_step_core pat) acc).1 =
      acc.1 ++ (l.filter fun e => pattern_matches pat e.2).map Prod.fst := by
  induction l with
  | nil => intro acc; simp
  | cons e rest ih =>
    intro acc
    rw [List.foldl_cons, ih]
    by_cases hm : pattern_matches pat e.2 = true
    · simp [stats_step_core, hm, List.filter_cons]
    · simp [stats_step_core, hm, List.filter_cons]

theorem dedupFirst_nil_iff (l : List String) :
    dedupFirst [] l = [] ↔ l = [] := by
  cases l with
  | nil => simp [dedupFirst]
  | cons x rest => simp [dedupFirst]

/-- Claim C10: with an empty in-scope identifier list, `build_stats`
applies no filtering: it produces exactly the unfiltered statistics
(every session contributes to counts and example collection), and a
pattern's count is zero exactly when no session at all matches it. -/
theorem build_stats_empty_scope (sessions : List (String × List Msg))
    (patterns : List Pattern) :
    build_stats sessions [] patterns =
      patterns.map (fun pat => (pat.identifier,
        statsForAllSessions sessions pat)) ∧
    ∀ pat : Pattern, (statsFor sessions [] pat).count = 0 ↔
      ∀ e ∈ sessions, pattern_matches pat e.2 = false := by
  have hstep : ∀ pat : Pattern,
      statsFor sessions [] pat = statsForAllSessions sessions pat := by
    intro pat
    simp [statsFor, statsForAllSessions, stats_step_nil]
  constructor
  · simp only [build_stats]
    exact List.map_congr_left fun pat _ => by rw [hstep]
  · intro pat
    rw [hstep]
    have hfst := core_fold_fst pat sessions ([], [])
    simp only [statsForAllSessions, PatternStats.mk.injEq]
    constructor
    · intro hc e he
      rw [List.length_eq_zero, dedupFirst_nil_iff, hfst] at hc
      simp only [List.nil_append, List.map_eq_nil_iff,
        List.filter_eq_nil_iff] at hc
      have := hc e he
      simpa using this
    · intro hall
      rw [List.length_eq_zero, dedupFirst_nil_iff, hfst]
      simp only [List.nil_append, List.map_eq_nil_iff,
        List.filter_eq_nil_iff]
      intro e he
      simpa using hall e he

end CodexUpdater
